import Mathlib

/-!
Shallow embedding of the valuation pipeline of app.py: fetch_all_stock_data,
calculate_returns and calculate_current_positions, together with spec-side
definitions used to compare the code against its specification. Prices and
fractions are rationals; dates and tickers are strings; a pandas NaN close
is an Option that is none.
-/

/-- One row of the positions table as read by app.py: player, symbol,
allocation, entry price, plus an entry date the valuation functions never
read. -/
structure Position where
  player : String
  symbol : String
  allocation : ℚ
  entry_price : ℚ
  entry_date : String
  deriving DecidableEq, Repr

/-- The pandas DataFrame of closing prices handed to the valuation
functions: a date index (chronological, latest date last), a list of symbol
columns, and the close at each (date, symbol). -/
structure StockData where
  index : List String
  symbols : List String
  price : String → String → ℚ

/-- Embedding of the pandas DataFrame empty test: some axis has length 0. -/
def StockData.isEmpty (m : StockData) : Bool :=
  m.index.isEmpty || m.symbols.isEmpty

/-- The date selected by iloc with index -1: the last entry of the index. -/
def StockData.latestDate (m : StockData) : String :=
  m.index.getLast?.getD ""

/-- One output row of calculate_current_positions. -/
structure SnapshotRow where
  player : String
  symbol : String
  allocation : ℚ
  entry_price : ℚ
  current_price : ℚ
  return_pct : ℚ
  deriving DecidableEq, Repr

/-- The row appended for one resolved position by calculate_current_positions
(app.py lines 109 to 118): current_price is the latest close of the symbol
and return_pct is ((current_price - entry_price) / entry_price) * allocation,
reported times 100. -/
def snapshotRow (m : StockData) (pos : Position) : SnapshotRow :=
  let current_price := m.price m.latestDate pos.symbol
  let return_pct := ((current_price - pos.entry_price) / pos.entry_price) * pos.allocation
  { player := pos.player, symbol := pos.symbol, allocation := pos.allocation,
    entry_price := pos.entry_price, current_price := current_price,
    return_pct := return_pct * 100 }

/-- Embedding of calculate_current_positions (app.py lines 99 to 120): on an
empty matrix return the empty frame, otherwise one row per position whose
symbol is among the matrix columns, in position-list order. -/
def calculate_current_positions (m : StockData) (positions : List Position) :
    List SnapshotRow :=
  if m.isEmpty then []
  else positions.filterMap (fun pos =>
    if pos.symbol ∈ m.symbols then some (snapshotRow m pos) else none)

/-- Replace the value stored at key k in an association list, keeping the
position of the key, or append (k, v) when k is absent: the behavior of a
Python dict assignment. -/
def updateAssoc {α : Type} (k : String) (v : α) :
    List (String × α) → List (String × α)
  | [] => [(k, v)]
  | kv :: rest => if kv.1 = k then (k, v) :: rest else kv :: updateAssoc k v rest

/-- Lookup in an association list, first matching key wins. -/
def lookupAssoc {α : Type} (k : String) : List (String × α) → Option α
  | [] => none
  | kv :: rest => if kv.1 = k then some kv.2 else lookupAssoc k rest

/-- Effect of one loop iteration of calculate_returns (app.py lines 68 to 74)
on the player_positions nested dict: make sure the inner dict of the player
exists, then assign the (allocation, entry_price) pair at the symbol key,
replacing any earlier entry for the same player and symbol. -/
def addPosition (acc : List (String × List (String × (ℚ × ℚ)))) (p : Position) :
    List (String × List (String × (ℚ × ℚ))) :=
  updateAssoc p.player
    (updateAssoc p.symbol (p.allocation, p.entry_price)
      ((lookupAssoc p.player acc).getD []))
    acc

/-- The player_positions nested dict after the first loop of
calculate_returns. -/
def buildPlayerPositions (positions : List Position) :
    List (String × List (String × (ℚ × ℚ))) :=
  positions.foldl addPosition []

/-- Value of the player_returns series at one date (app.py lines 79 to 84):
start from 0.0 and add, for every held symbol whose column is in the matrix,
((price - entry_price) / entry_price) * allocation * 100. -/
def playerReturnAt (m : StockData) (details : List (String × (ℚ × ℚ)))
    (d : String) : ℚ :=
  details.foldl
    (fun acc sd =>
      if sd.1 ∈ m.symbols then
        acc + ((m.price d sd.1 - sd.2.2) / sd.2.2) * sd.2.1 * 100
      else acc) 0

/-- One output row of calculate_returns after reset_index: date, player and
the aggregated percent return. -/
structure ReturnRow where
  date : String
  player : String
  return_pct : ℚ
  deriving DecidableEq, Repr

/-- Embedding of calculate_returns (app.py lines 65 to 97): build the nested
dict, emit one frame per player covering every date of the matrix index, and
stack the frames. -/
def calculate_returns (m : StockData) (positions : List Position) :
    List ReturnRow :=
  ((buildPlayerPositions positions).map (fun pd =>
    m.index.map (fun d => ReturnRow.mk d pd.1 (playerReturnAt m pd.2 d)))).flatten

/-- The portion of a yf.download response that fetch_all_stock_data touches:
the date index, the level-0 ticker labels of the column MultiIndex produced
by grouping per ticker, and each (date, ticker) close, none for a missing
value. -/
structure RawData where
  index : List String
  tickers : List String
  close : String → String → Option ℚ

/-- A provider interaction either raises an exception or returns data. -/
inductive ProviderResp where
  | failure (msg : String)
  | success (data : RawData)

/-- The close-price DataFrame returned by fetch_all_stock_data. -/
structure CloseMatrix where
  index : List String
  symbols : List String
  close : String → String → Option ℚ

/-- The empty DataFrame. -/
def emptyCloseMatrix : CloseMatrix :=
  { index := [], symbols := [], close := fun _ _ => none }

/-- Shallow embedding of fetch_all_stock_data (app.py lines 41 to 63). The
provider is an oracle from a ticker list to a response; the second component
of the result records every request the function issues — the body contains
a single yf.download call and no retry loop, so the trace always holds one
request, the full symbol list. The try/except wrapper is embedded by
totality: the failure branch, and the KeyError raised by selecting the
Close column when a single requested symbol came back empty, both return
the empty DataFrame instead of propagating an exception. With exactly one
symbol the result has a single column literally named Close; otherwise the
cross-section at level 1 keeps one column per response ticker, close values
passed through unchanged — no gap repair is applied anywhere. -/
def fetchProcess (symbols : List String) :
    ProviderResp → CloseMatrix × List (List String)
  | ProviderResp.failure _ => (emptyCloseMatrix, [symbols])
  | ProviderResp.success data =>
    if symbols.length = 1 then
      match data.tickers with
      | [] => (emptyCloseMatrix, [symbols])
      | t :: _ =>
        ({ index := data.index, symbols := ["Close"],
           close := fun d c => if c = "Close" then data.close d t else none },
         [symbols])
    else
      ({ index := data.index, symbols := data.tickers, close := data.close },
       [symbols])

/-- The fetch itself: a single provider call, processed as above. -/
def fetch_all_stock_data (symbols : List String)
    (provider : List String → ProviderResp) : CloseMatrix × List (List String) :=
  fetchProcess symbols (provider symbols)

/-- Modelled from the spec: entry value of an Allocation-sized position,
fraction times bankroll. -/
def spec_entry_value (pos : Position) (bankroll : ℚ) : ℚ :=
  pos.allocation * bankroll

/-- Modelled from the spec: unit count derived as entry value over entry
price. -/
def spec_unit_count (pos : Position) (bankroll : ℚ) : ℚ :=
  spec_entry_value pos bankroll / pos.entry_price

/-- Modelled from the spec: current value, unit count times current price. -/
def spec_current_value (pos : Position) (bankroll cp : ℚ) : ℚ :=
  spec_unit_count pos bankroll * cp

/-- Modelled from the spec: dollar return, current value minus entry value. -/
def spec_dollar_return (pos : Position) (bankroll cp : ℚ) : ℚ :=
  spec_current_value pos bankroll cp - spec_entry_value pos bankroll

/-- Modelled from the spec: percent return, dollar return over entry value. -/
def spec_pct_return (pos : Position) (bankroll cp : ℚ) : ℚ :=
  spec_dollar_return pos bankroll cp / spec_entry_value pos bankroll

/-- Players in first-occurrence order: the key order of the player_positions
dict. -/
def playersOf (positions : List Position) : List String :=
  positions.foldl (fun acc p => if p.player ∈ acc then acc else acc ++ [p.player]) []

/-- The sizing data calculate_returns effectively uses for one player: a
direct scan of the position list in which a later position with the same
symbol replaces an earlier one, as a Python dict assignment does. -/
def effectiveDetails (positions : List Position) (pl : String) :
    List (String × (ℚ × ℚ)) :=
  positions.foldl
    (fun acc p =>
      if p.player = pl then updateAssoc p.symbol (p.allocation, p.entry_price) acc
      else acc) []

/-- Contribution of one position to the historical series at one date, per
the formula of app.py lines 82 to 83. -/
def positionTermAt (m : StockData) (pos : Position) (d : String) : ℚ :=
  ((m.price d pos.symbol - pos.entry_price) / pos.entry_price) * pos.allocation * 100

/-! Helper lemmas relating the nested player_positions dict to direct scans
of the position list. -/

lemma playersOf_append (ps : List Position) (p : Position) :
    playersOf (ps ++ [p]) =
      if p.player ∈ playersOf ps then playersOf ps else playersOf ps ++ [p.player] := by
  simp [playersOf, List.foldl_append]

lemma effectiveDetails_append (ps : List Position) (p : Position) (pl : String) :
    effectiveDetails (ps ++ [p]) pl =
      if p.player = pl then
        updateAssoc p.symbol (p.allocation, p.entry_price) (effectiveDetails ps pl)
      else effectiveDetails ps pl := by
  simp [effectiveDetails, List.foldl_append]

lemma buildPlayerPositions_append (ps : List Position) (p : Position) :
    buildPlayerPositions (ps ++ [p]) = addPosition (buildPlayerPositions ps) p := by
  simp [buildPlayerPositions, List.foldl_append]

lemma lookupAssoc_map {α : Type} (f : String → α) (L : List String) (k : String) :
    lookupAssoc k (L.map (fun pl => (pl, f pl))) =
      if k ∈ L then some (f k) else none := by
  induction L with
  | nil => simp [lookupAssoc]
  | cons a L ih =>
    simp only [List.map_cons, lookupAssoc, ih, List.mem_cons]
    by_cases h : a = k
    · subst h
      simp
    · have h' : ¬k = a := fun hk => h hk.symm
      simp [h, h']

lemma updateAssoc_map_mem {α : Type} (f : String → α) (v : α) {L : List String}
    {k : String} (hN : L.Nodup) (hk : k ∈ L) :
    updateAssoc k v (L.map (fun pl => (pl, f pl))) =
      L.map (fun pl => (pl, if pl = k then v else f pl)) := by
  induction L with
  | nil => cases hk
  | cons a L ih =>
    by_cases h : a = k
    · subst h
      have hnot : a ∉ L := (List.nodup_cons.mp hN).1
      simp only [List.map_cons, updateAssoc, if_pos rfl]
      have : L.map (fun pl => (pl, f pl)) =
          L.map (fun pl => (pl, if pl = a then v else f pl)) := by
        apply List.map_congr_left
        intro b hb
        have : b ≠ a := fun hba => hnot (hba ▸ hb)
        simp [this]
      simp [this]
    · have hk' : k ∈ L := by
        rcases List.mem_cons.mp hk with rfl | hm
        · exact absurd rfl h
        · exact hm
      simp only [List.map_cons, updateAssoc, h, if_false,
        ih (List.nodup_cons.mp hN).2 hk', h]

lemma updateAssoc_map_not_mem {α : Type} (f : String → α) (v : α) {L : List String}
    {k : String} (hk : k ∉ L) :
    updateAssoc k v (L.map (fun pl => (pl, f pl))) =
      L.map (fun pl => (pl, f pl)) ++ [(k, v)] := by
  induction L with
  | nil => simp [updateAssoc]
  | cons a L ih =>
    have ha : a ≠ k := fun h => hk (h ▸ List.mem_cons_self a L)
    have hk' : k ∉ L := fun h => hk (List.mem_cons_of_mem a h)
    simp [updateAssoc, ha, ih hk']

lemma mem_playersOf_of_append {ps : List Position} {p : Position} {pl : String}
    (h : pl ∈ playersOf ps) : pl ∈ playersOf (ps ++ [p]) := by
  by_cases hm : p.player ∈ playersOf ps
  · rw [playersOf_append, if_pos hm]
    exact h
  · rw [playersOf_append, if_neg hm]
    exact List.mem_append_left _ h

lemma self_mem_playersOf_append (ps : List Position) (p : Position) :
    p.player ∈ playersOf (ps ++ [p]) := by
  by_cases hm : p.player ∈ playersOf ps
  · rw [playersOf_append, if_pos hm]
    exact hm
  · rw [playersOf_append, if_neg hm]
    exact List.mem_append_right _ (List.mem_singleton.mpr rfl)

lemma playersOf_nodup (ps : List Position) : (playersOf ps).Nodup := by
  induction ps using List.reverseRecOn with
  | nil => simp [playersOf]
  | append_singleton ps p ih =>
    by_cases hm : p.player ∈ playersOf ps
    · rw [playersOf_append, if_pos hm]
      exact ih
    · rw [playersOf_append, if_neg hm]
      simp [List.nodup_append, ih, hm]

lemma playerMem_playersOf {ps : List Position} {p : Position} (h : p ∈ ps) :
    p.player ∈ playersOf ps := by
  induction ps using List.reverseRecOn with
  | nil => cases h
  | append_singleton ps q ih =>
    rcases List.mem_append.mp h with hm | hm
    · exact mem_playersOf_of_append (ih hm)
    · have : p = q := by simpa using hm
      subst this
      exact self_mem_playersOf_append ps p

lemma effectiveDetails_of_not_mem {ps : List Position} {pl : String}
    (h : pl ∉ playersOf ps) : effectiveDetails ps pl = [] := by
  induction ps using List.reverseRecOn with
  | nil => rfl
  | append_singleton ps p ih =>
    rw [effectiveDetails_append]
    have hps : pl ∉ playersOf ps := fun hm => h (mem_playersOf_of_append hm)
    by_cases hp : p.player = pl
    · exact absurd (hp ▸ self_mem_playersOf_append ps p) h
    · rw [if_neg hp]
      exact ih hps

lemma buildPlayerPositions_eq (ps : List Position) :
    buildPlayerPositions ps =
      (playersOf ps).map (fun pl => (pl, effectiveDetails ps pl)) := by
  induction ps using List.reverseRecOn with
  | nil => rfl
  | append_singleton ps p ih =>
    rw [buildPlayerPositions_append, ih, playersOf_append, addPosition]
    by_cases h : p.player ∈ playersOf ps
    · rw [if_pos h, lookupAssoc_map, if_pos h]
      simp only [Option.getD_some]
      rw [updateAssoc_map_mem _ _ (playersOf_nodup ps) h]
      apply List.map_congr_left
      intro pl hpl
      rw [effectiveDetails_append]
      by_cases hp : pl = p.player
      · subst hp
        simp
      · rw [if_neg hp, if_neg fun hq => hp hq.symm]
    · rw [if_neg h, lookupAssoc_map, if_neg h]
      simp only [Option.getD_none]
      rw [updateAssoc_map_not_mem _ _ h]
      rw [List.map_append]
      congr 1
      · apply List.map_congr_left
        intro pl hpl
        rw [effectiveDetails_append]
        have hne : p.player ≠ pl := fun hq => h (hq ▸ hpl)
        rw [if_neg hne]
      · simp only [List.map_cons, List.map_nil]
        rw [effectiveDetails_append, if_pos rfl,
          effectiveDetails_of_not_mem h]

/-- Refinement of calculate_returns: the nested-dict construction agrees
with a direct per-player scan of the position list. -/
lemma calculate_returns_eq (m : StockData) (ps : List Position) :
    calculate_returns m ps =
      ((playersOf ps).map (fun pl =>
        m.index.map (fun d =>
          ReturnRow.mk d pl (playerReturnAt m (effectiveDetails ps pl) d)))).flatten := by
  rw [calculate_returns, buildPlayerPositions_eq, List.map_map]
  rfl

/-! Lemmas about playerReturnAt and the entries it sums. -/

lemma playerReturnAt_eq_sum (m : StockData) (details : List (String × (ℚ × ℚ)))
    (d : String) :
    playerReturnAt m details d =
      (details.map (fun sd =>
        if sd.1 ∈ m.symbols then ((m.price d sd.1 - sd.2.2) / sd.2.2) * sd.2.1 * 100
        else 0)).sum := by
  have hstep :
      (fun (acc : ℚ) (sd : String × (ℚ × ℚ)) =>
          if sd.1 ∈ m.symbols then
            acc + ((m.price d sd.1 - sd.2.2) / sd.2.2) * sd.2.1 * 100
          else acc) =
        fun acc sd =>
          acc + (if sd.1 ∈ m.symbols then
            ((m.price d sd.1 - sd.2.2) / sd.2.2) * sd.2.1 * 100 else 0) := by
    funext acc sd
    by_cases h : sd.1 ∈ m.symbols <;> simp [h]
  rw [playerReturnAt, hstep, List.sum_eq_foldl, List.foldl_map]

lemma playerReturnAt_updateAssoc_not_mem (m : StockData) {s : String}
    (hs : s ∉ m.symbols) (v : ℚ × ℚ) (details : List (String × (ℚ × ℚ)))
    (d : String) :
    playerReturnAt m (updateAssoc s v details) d = playerReturnAt m details d := by
  rw [playerReturnAt_eq_sum, playerReturnAt_eq_sum]
  induction details with
  | nil => simp [updateAssoc, hs]
  | cons kv rest ih =>
    by_cases h : kv.1 = s
    · simp [updateAssoc, h, hs]
    · simp only [updateAssoc, h, if_false, List.map_cons, List.sum_cons, ih]

lemma mem_updateAssoc {α : Type} {kv : String × α} {k : String} {v : α} :
    ∀ {l : List (String × α)}, kv ∈ updateAssoc k v l → kv = (k, v) ∨ kv ∈ l := by
  intro l
  induction l with
  | nil =>
    intro h
    simpa [updateAssoc] using h
  | cons a rest ih =>
    intro h
    by_cases ha : a.1 = k
    · have heq : updateAssoc k v (a :: rest) = (k, v) :: rest := by
        simp [updateAssoc, ha]
      rw [heq] at h
      rcases List.mem_cons.mp h with rfl | hm
      · exact Or.inl rfl
      · exact Or.inr (List.mem_cons_of_mem _ hm)
    · have heq : updateAssoc k v (a :: rest) = a :: updateAssoc k v rest := by
        simp [updateAssoc, ha]
      rw [heq] at h
      rcases List.mem_cons.mp h with rfl | hm
      · exact Or.inr (List.mem_cons_self _ _)
      · rcases ih hm with h1 | h2
        · exact Or.inl h1
        · exact Or.inr (List.mem_cons_of_mem _ h2)

lemma mem_effectiveDetails {ps : List Position} {pl : String}
    {sd : String × (ℚ × ℚ)} (h : sd ∈ effectiveDetails ps pl) :
    ∃ p ∈ ps, p.player = pl ∧ p.symbol = sd.1 := by
  induction ps using List.reverseRecOn with
  | nil => simp [effectiveDetails] at h
  | append_singleton ps p ih =>
    rw [effectiveDetails_append] at h
    by_cases hp : p.player = pl
    · rw [if_pos hp] at h
      rcases mem_updateAssoc h with rfl | hm
      · exact ⟨p, List.mem_append_right _ (List.mem_singleton.mpr rfl), hp, rfl⟩
      · rcases ih hm with ⟨q, hq, hq2, hq3⟩
        exact ⟨q, List.mem_append_left _ hq, hq2, hq3⟩
    · rw [if_neg hp] at h
      rcases ih h with ⟨q, hq, hq2, hq3⟩
      exact ⟨q, List.mem_append_left _ hq, hq2, hq3⟩

lemma playerReturnAt_eq_zero {m : StockData} {details : List (String × (ℚ × ℚ))}
    (h : ∀ sd ∈ details, sd.1 ∉ m.symbols) (d : String) :
    playerReturnAt m details d = 0 := by
  rw [playerReturnAt_eq_sum]
  apply List.sum_eq_zero
  intro x hx
  rcases List.mem_map.mp hx with ⟨sd, hsd, rfl⟩
  simp [h sd hsd]

lemma filter_player_flatten (m : StockData) (f : String → String → ℚ) :
    ∀ (L : List String), L.Nodup → ∀ {pl : String}, pl ∈ L →
      ((L.map (fun q => m.index.map (fun d => ReturnRow.mk d q (f q d)))).flatten.filter
          (fun r => r.player == pl)) =
        m.index.map (fun d => ReturnRow.mk d pl (f pl d)) := by
  intro L
  induction L with
  | nil =>
    intro _ pl h
    cases h
  | cons a L ih =>
    intro hN pl hpl
    simp only [List.map_cons, List.flatten_cons, List.filter_append]
    rcases List.mem_cons.mp hpl with rfl | hm
    · have h1 : (m.index.map (fun d => ReturnRow.mk d pl (f pl d))).filter
          (fun r => r.player == pl) =
            m.index.map (fun d => ReturnRow.mk d pl (f pl d)) := by
        apply List.filter_eq_self.mpr
        intro r hr
        rcases List.mem_map.mp hr with ⟨d, hd, rfl⟩
        simp
      have hnot : pl ∉ L := (List.nodup_cons.mp hN).1
      have h2 : ((L.map (fun q =>
          m.index.map (fun d => ReturnRow.mk d q (f q d)))).flatten.filter
            (fun r => r.player == pl)) = [] := by
        apply List.filter_eq_nil_iff.mpr
        intro r hr
        rcases List.mem_flatten.mp hr with ⟨blk, hblk, hrblk⟩
        rcases List.mem_map.mp hblk with ⟨q, hq, rfl⟩
        rcases List.mem_map.mp hrblk with ⟨d, hd, rfl⟩
        have hne : q ≠ pl := fun hq2 => hnot (hq2 ▸ hq)
        simp [hne]
      rw [h1, h2, List.append_nil]
    · have ha : a ≠ pl := fun h2 => (List.nodup_cons.mp hN).1 (h2 ▸ hm)
      have h1 : (m.index.map (fun d => ReturnRow.mk d a (f a d))).filter
          (fun r => r.player == pl) = [] := by
        apply List.filter_eq_nil_iff.mpr
        intro r hr
        rcases List.mem_map.mp hr with ⟨d, hd, rfl⟩
        simp [ha]
      rw [h1, ih (List.nodup_cons.mp hN).2 hm, List.nil_append]

/-! Reduction lemmas for the fetcher. -/

lemma fetch_failure (symbols : List String) (provider : List String → ProviderResp)
    (e : String) (h : provider symbols = ProviderResp.failure e) :
    fetch_all_stock_data symbols provider = (emptyCloseMatrix, [symbols]) := by
  unfold fetch_all_stock_data
  rw [h]
  rfl

lemma fetch_success_multi (symbols : List String)
    (provider : List String → ProviderResp) (data : RawData)
    (h : provider symbols = ProviderResp.success data)
    (hlen : symbols.length ≠ 1) :
    fetch_all_stock_data symbols provider =
      ({ index := data.index, symbols := data.tickers, close := data.close },
       [symbols]) := by
  unfold fetch_all_stock_data
  rw [h]
  simp only [fetchProcess]
  rw [if_neg hlen]

lemma fetch_success_single_nil (symbols : List String)
    (provider : List String → ProviderResp) (data : RawData)
    (h : provider symbols = ProviderResp.success data)
    (hlen : symbols.length = 1) (ht : data.tickers = []) :
    fetch_all_stock_data symbols provider = (emptyCloseMatrix, [symbols]) := by
  unfold fetch_all_stock_data
  rw [h]
  simp only [fetchProcess]
  rw [if_pos hlen, ht]

/-- C2: fetch_all_stock_data never propagates an exception to its caller (the
embedded function is total and its failure branch is a value): on any provider
failure it returns the empty DataFrame, and a symbol the provider did not
return is absent from the returned matrix — shown for the multi-symbol path,
and for the single-symbol path whose empty response also yields the empty
DataFrame. -/
theorem c2_fetch_never_throws (symbols : List String)
    (provider : List String → ProviderResp) :
    (∀ e, provider symbols = ProviderResp.failure e →
        (fetch_all_stock_data symbols provider).1 = emptyCloseMatrix)
    ∧ (∀ data s, provider symbols = ProviderResp.success data →
        symbols.length ≠ 1 → s ∉ data.tickers →
        s ∉ (fetch_all_stock_data symbols provider).1.symbols)
    ∧ (∀ data, provider symbols = ProviderResp.success data →
        symbols.length = 1 → data.tickers = [] →
        (fetch_all_stock_data symbols provider).1 = emptyCloseMatrix) := by
  refine ⟨fun e he => ?_, fun data s hd hlen hs => ?_, fun data hd hlen ht => ?_⟩
  · rw [fetch_failure symbols provider e he]
  · rw [fetch_success_multi symbols provider data hd hlen]
    exact hs
  · rw [fetch_success_single_nil symbols provider data hd hlen ht]

/-- C2 witness: a failing provider yields the empty DataFrame, and a symbol
missing from a successful two-symbol response is absent from the result. -/
theorem c2_witness :
    (fetch_all_stock_data ["X"] (fun _ => ProviderResp.failure "boom")).1 =
      emptyCloseMatrix
    ∧ "Y" ∉ (fetch_all_stock_data ["X", "Y"]
        (fun _ => ProviderResp.success
          (RawData.mk ["d1"] ["X"] (fun _ _ => some 100)))).1.symbols :=
  ⟨(c2_fetch_never_throws ["X"] (fun _ => ProviderResp.failure "boom")).1 "boom" rfl,
   (c2_fetch_never_throws ["X", "Y"]
      (fun _ => ProviderResp.success
        (RawData.mk ["d1"] ["X"] (fun _ _ => some 100)))).2.1
     (RawData.mk ["d1"] ["X"] (fun _ _ => some 100)) "Y" rfl (by decide) (by decide)⟩

/-- C5 (amended): the fetcher issues exactly one batched request — the full
symbol list — for every input; there is no retry of a missing subset, and a
symbol absent from the single response is dropped immediately from the
matrix. -/
theorem c5_no_retry (symbols : List String)
    (provider : List String → ProviderResp) :
    (fetch_all_stock_data symbols provider).2 = [symbols]
    ∧ (∀ data s, provider symbols = ProviderResp.success data →
        symbols.length ≠ 1 → s ∉ data.tickers →
        s ∉ (fetch_all_stock_data symbols provider).1.symbols) := by
  constructor
  · unfold fetch_all_stock_data
    cases hresp : provider symbols with
    | failure e => rfl
    | success data =>
      simp only [fetchProcess]
      by_cases hlen : symbols.length = 1
      · rw [if_pos hlen]
        cases htk : data.tickers with
        | nil => rfl
        | cons t ts => rfl
      · rw [if_neg hlen]
  · intro data s hd hlen hs
    rw [fetch_success_multi symbols provider data hd hlen]
    exact hs

/-- C5 counterexample: with symbol Y entirely absent from the response, the
request trace still holds exactly the one original batched request; no
request restricted to the missing subset is ever issued, and Y is dropped
from the matrix at once. -/
theorem c5_counterexample :
    (fetch_all_stock_data ["X", "Y"]
        (fun _ => ProviderResp.success
          (RawData.mk ["d1"] ["X"]
            (fun _ t => if t = "X" then some 100 else none)))).2 = [["X", "Y"]]
    ∧ ["Y"] ∉ (fetch_all_stock_data ["X", "Y"]
        (fun _ => ProviderResp.success
          (RawData.mk ["d1"] ["X"]
            (fun _ t => if t = "X" then some 100 else none)))).2
    ∧ "Y" ∉ (fetch_all_stock_data ["X", "Y"]
        (fun _ => ProviderResp.success
          (RawData.mk ["d1"] ["X"]
            (fun _ t => if t = "X" then some 100 else none)))).1.symbols := by
  refine ⟨rfl, by decide, by decide⟩

/-- C5 witness: the single-request property and the immediate drop of a
missing symbol, at a concrete provider. -/
theorem c5_witness :
    (fetch_all_stock_data ["P", "Q"]
        (fun _ => ProviderResp.success
          (RawData.mk ["d1", "d2"] ["P"] (fun _ _ => some 3)))).2 = [["P", "Q"]]
    ∧ "Q" ∉ (fetch_all_stock_data ["P", "Q"]
        (fun _ => ProviderResp.success
          (RawData.mk ["d1", "d2"] ["P"] (fun _ _ => some 3)))).1.symbols :=
  ⟨(c5_no_retry ["P", "Q"]
      (fun _ => ProviderResp.success
        (RawData.mk ["d1", "d2"] ["P"] (fun _ _ => some 3)))).1,
   (c5_no_retry ["P", "Q"]
      (fun _ => ProviderResp.success
        (RawData.mk ["d1", "d2"] ["P"] (fun _ _ => some 3)))).2
     (RawData.mk ["d1", "d2"] ["P"] (fun _ _ => some 3)) "Q" rfl (by decide)
     (by decide)⟩

/-- C6 (amended): no gap repair is performed — on the multi-symbol path the
fetcher passes the index, the tickers and every close value of the response
through unchanged, so a date whose price is absent stays absent in the
matrix. -/
theorem c6_close_passthrough (symbols : List String)
    (provider : List String → ProviderResp) (data : RawData)
    (hd : provider symbols = ProviderResp.success data)
    (hlen : symbols.length ≠ 1) :
    (fetch_all_stock_data symbols provider).1.index = data.index
    ∧ (fetch_all_stock_data symbols provider).1.symbols = data.tickers
    ∧ ∀ d s, (fetch_all_stock_data symbols provider).1.close d s =
        data.close d s := by
  rw [fetch_success_multi symbols provider data hd hlen]
  exact ⟨rfl, rfl, fun d s => rfl⟩

/-- C6 counterexample: symbol X has a close at the first date d1 but none at
the later date d2; the fetched matrix still has none at d2 — the previous
close of 100 is not carried forward, so no gap repair happened. -/
theorem c6_counterexample :
    (fetch_all_stock_data ["X", "Z"]
        (fun _ => ProviderResp.success
          (RawData.mk ["d1", "d2"] ["X", "Z"]
            (fun d t => if t = "X" then (if d = "d1" then some 100 else none)
              else some 50)))).1.index = ["d1", "d2"]
    ∧ (fetch_all_stock_data ["X", "Z"]
        (fun _ => ProviderResp.success
          (RawData.mk ["d1", "d2"] ["X", "Z"]
            (fun d t => if t = "X" then (if d = "d1" then some 100 else none)
              else some 50)))).1.close "d1" "X" = some 100
    ∧ (fetch_all_stock_data ["X", "Z"]
        (fun _ => ProviderResp.success
          (RawData.mk ["d1", "d2"] ["X", "Z"]
            (fun d t => if t = "X" then (if d = "d1" then some 100 else none)
              else some 50)))).1.close "d2" "X" = none
    ∧ (none : Option ℚ) ≠ some 100 := by
  refine ⟨rfl, rfl, rfl, by decide⟩

/-- C6 witness: the pass-through property at a concrete provider and cell. -/
theorem c6_witness :
    (fetch_all_stock_data ["P", "Q"]
        (fun _ => ProviderResp.success
          (RawData.mk ["d1", "d2"] ["P", "Q"]
            (fun d t => if t = "P" ∧ d = "d2" then none else some 7)))).1.symbols =
      ["P", "Q"]
    ∧ (fetch_all_stock_data ["P", "Q"]
        (fun _ => ProviderResp.success
          (RawData.mk ["d1", "d2"] ["P", "Q"]
            (fun d t => if t = "P" ∧ d = "d2" then none else some 7)))).1.close
        "d2" "P" =
      (RawData.mk ["d1", "d2"] ["P", "Q"]
        (fun d t => if t = "P" ∧ d = "d2" then none else some 7)).close "d2" "P" :=
  ⟨(c6_close_passthrough ["P", "Q"]
      (fun _ => ProviderResp.success
        (RawData.mk ["d1", "d2"] ["P", "Q"]
          (fun d t => if t = "P" ∧ d = "d2" then none else some 7)))
      (RawData.mk ["d1", "d2"] ["P", "Q"]
        (fun d t => if t = "P" ∧ d = "d2" then none else some 7)) rfl
      (by decide)).2.1,
   (c6_close_passthrough ["P", "Q"]
      (fun _ => ProviderResp.success
        (RawData.mk ["d1", "d2"] ["P", "Q"]
          (fun d t => if t = "P" ∧ d = "d2" then none else some 7)))
      (RawData.mk ["d1", "d2"] ["P", "Q"]
        (fun d t => if t = "P" ∧ d = "d2" then none else some 7)) rfl
      (by decide)).2.2 "d2" "P"⟩

/-! Claims about the valuation engine. -/

lemma spec_pct_return_eq (pos : Position) (B cp : ℚ)
    (hep : pos.entry_price ≠ 0) (ha : pos.allocation ≠ 0) (hB : B ≠ 0) :
    spec_pct_return pos B cp = (cp - pos.entry_price) / pos.entry_price := by
  unfold spec_pct_return spec_dollar_return spec_current_value spec_unit_count
    spec_entry_value
  field_simp
  ring

/-- C1 (amended): for a resolved position, current_price is indeed the latest
close, and with entry value, unit count, current value and dollar return
derived per the spec from the stored allocation fraction and any nonzero
bankroll, dollar_return = current_value - entry_value holds; but the
return_pct the code reports equals (dollar_return / entry_value) *
allocation * 100 — it carries an extra allocation factor beyond
dollar_return / entry_value. -/
theorem c1_allocation_weighted_return (m : StockData) (ps : List Position)
    (pos : Position) (B : ℚ) (hmem : pos ∈ ps) (hm : m.isEmpty = false)
    (hsym : pos.symbol ∈ m.symbols) (hep : pos.entry_price ≠ 0)
    (ha : pos.allocation ≠ 0) (hB : B ≠ 0) :
    snapshotRow m pos ∈ calculate_current_positions m ps
    ∧ (snapshotRow m pos).current_price = m.price m.latestDate pos.symbol
    ∧ spec_dollar_return pos B ((snapshotRow m pos).current_price) =
        spec_current_value pos B ((snapshotRow m pos).current_price) -
          spec_entry_value pos B
    ∧ (snapshotRow m pos).return_pct =
        spec_pct_return pos B ((snapshotRow m pos).current_price) *
          pos.allocation * 100 := by
  refine ⟨?_, rfl, rfl, ?_⟩
  · simp only [calculate_current_positions, hm, Bool.false_eq_true, if_false]
    exact List.mem_filterMap.mpr ⟨pos, hmem, by rw [if_pos hsym]⟩
  · rw [spec_pct_return_eq pos B ((snapshotRow m pos).current_price) hep ha hB]
    rfl

/-- C1 counterexample: allocation one half, entry 100, latest close 110. The
code reports return_pct = 5 (five percent), while the spec equations give
pct_return = dollar_return / entry_value = 1/10 (ten percent): the reported
value differs from the spec value under either scaling convention, because
of the extra allocation factor. -/
theorem c1_counterexample :
    (calculate_current_positions
        (StockData.mk ["d1", "d2"] ["X"]
          (fun d _ => if d = "d2" then (110 : ℚ) else 100))
        [Position.mk "A" "X" (1/2) 100 "2024-01-10"]).map
      (fun r => r.return_pct) = [5]
    ∧ spec_pct_return (Position.mk "A" "X" (1/2) 100 "2024-01-10") 1000 110 = 1/10
    ∧ (5 : ℚ) ≠ (1/10) * 100
    ∧ (5 : ℚ) / 100 ≠ 1/10 := by
  refine ⟨?_, ?_, by norm_num, by norm_num⟩
  · norm_num [calculate_current_positions, StockData.isEmpty, List.filterMap,
      snapshotRow, StockData.latestDate]
  · norm_num [spec_pct_return, spec_dollar_return, spec_current_value,
      spec_unit_count, spec_entry_value]

/-- C1 witness: the amended statement instantiated at the same inputs. -/
theorem c1_witness :
    (100 : ℚ) ≠ 0
    ∧ (snapshotRow
        (StockData.mk ["d1", "d2"] ["X"]
          (fun d _ => if d = "d2" then (110 : ℚ) else 100))
        (Position.mk "A" "X" (1/2) 100 "2024-01-10")).return_pct =
      spec_pct_return (Position.mk "A" "X" (1/2) 100 "2024-01-10") 1000
          ((snapshotRow
            (StockData.mk ["d1", "d2"] ["X"]
              (fun d _ => if d = "d2" then (110 : ℚ) else 100))
            (Position.mk "A" "X" (1/2) 100 "2024-01-10")).current_price) *
        (Position.mk "A" "X" (1/2) 100 "2024-01-10").allocation * 100 :=
  ⟨by norm_num,
   (c1_allocation_weighted_return
      (StockData.mk ["d1", "d2"] ["X"]
        (fun d _ => if d = "d2" then (110 : ℚ) else 100))
      [Position.mk "A" "X" (1/2) 100 "2024-01-10"]
      (Position.mk "A" "X" (1/2) 100 "2024-01-10") 1000
      (List.mem_singleton.mpr rfl) rfl (by decide) (by norm_num) (by norm_num)
      (by norm_num)).2.2.2⟩

/-- C3 (amended): in calculate_current_positions no contribution is lost —
two positions of one player in one symbol produce two snapshot rows, later
summed by the leaderboard groupby; but in calculate_returns a later position
of the same player in the same symbol replaces the earlier one, so the
historical series equals the one computed from the second position alone. -/
theorem c3_replacement_semantics (m : StockData) (P1 P2 : Position)
    (hp : P1.player = P2.player) (hs : P1.symbol = P2.symbol) :
    calculate_returns m [P1, P2] = calculate_returns m [P2]
    ∧ (m.isEmpty = false → P2.symbol ∈ m.symbols →
        calculate_current_positions m [P1, P2] =
          [snapshotRow m P1, snapshotRow m P2]) := by
  constructor
  · have hb : buildPlayerPositions [P1, P2] = buildPlayerPositions [P2] := by
      simp [buildPlayerPositions, addPosition, updateAssoc, lookupAssoc, hp, hs]
    rw [calculate_returns, calculate_returns, hb]
  · intro hm hsym
    have hs1 : P1.symbol ∈ m.symbols := hs ▸ hsym
    simp [calculate_current_positions, hm, hs1, hsym]

/-- C3 counterexample: two same-symbol positions of player A whose individual
contributions at date d1 are 10 and 0; the historical series reports 0, the
value from the second position alone, not the sum 10. -/
theorem c3_counterexample :
    calculate_returns (StockData.mk ["d1"] ["X"] (fun _ _ => 110))
        [Position.mk "A" "X" 1 100 "e", Position.mk "A" "X" 1 110 "e"] =
      [ReturnRow.mk "d1" "A" 0]
    ∧ positionTermAt (StockData.mk ["d1"] ["X"] (fun _ _ => 110))
          (Position.mk "A" "X" 1 100 "e") "d1"
        + positionTermAt (StockData.mk ["d1"] ["X"] (fun _ _ => 110))
          (Position.mk "A" "X" 1 110 "e") "d1" = 10
    ∧ (0 : ℚ) ≠ 10 := by
  refine ⟨?_, ?_, by norm_num⟩
  · norm_num [calculate_returns, buildPlayerPositions, addPosition, updateAssoc,
      lookupAssoc, playerReturnAt]
  · norm_num [positionTermAt]

/-- C3 witness: the amended statement instantiated at concrete data. -/
theorem c3_witness :
    calculate_returns (StockData.mk ["d1"] ["Y"] (fun _ _ => 120))
        [Position.mk "A" "Y" (1/2) 100 "e", Position.mk "A" "Y" (1/4) 80 "e"] =
      calculate_returns (StockData.mk ["d1"] ["Y"] (fun _ _ => 120))
        [Position.mk "A" "Y" (1/4) 80 "e"]
    ∧ calculate_current_positions (StockData.mk ["d1"] ["Y"] (fun _ _ => 120))
        [Position.mk "A" "Y" (1/2) 100 "e", Position.mk "A" "Y" (1/4) 80 "e"] =
      [snapshotRow (StockData.mk ["d1"] ["Y"] (fun _ _ => 120))
        (Position.mk "A" "Y" (1/2) 100 "e"),
       snapshotRow (StockData.mk ["d1"] ["Y"] (fun _ _ => 120))
        (Position.mk "A" "Y" (1/4) 80 "e")] :=
  ⟨(c3_replacement_semantics (StockData.mk ["d1"] ["Y"] (fun _ _ => 120))
      (Position.mk "A" "Y" (1/2) 100 "e") (Position.mk "A" "Y" (1/4) 80 "e")
      rfl rfl).1,
   (c3_replacement_semantics (StockData.mk ["d1"] ["Y"] (fun _ _ => 120))
      (Position.mk "A" "Y" (1/2) 100 "e") (Position.mk "A" "Y" (1/4) 80 "e")
      rfl rfl).2 rfl (by decide)⟩


/-- C7 (amended): the historical series has exactly one block per distinct
player, covering every date of the matrix index (also dates before entry),
and the value at each (date, player) is the sum of the per-date formula over
the sizing data the nested dict retains for that player — the last position
per (player, symbol), restricted to symbols present in the matrix. -/
theorem c7_full_window_aggregate (m : StockData) (ps : List Position) :
    calculate_returns m ps =
      ((playersOf ps).map (fun pl =>
        m.index.map (fun d =>
          ReturnRow.mk d pl (playerReturnAt m (effectiveDetails ps pl) d)))).flatten
    ∧ (playersOf ps).Nodup :=
  ⟨calculate_returns_eq m ps, playersOf_nodup ps⟩

/-- C7 counterexample: player B holds two positions in symbol Y whose per-date
contributions at d1 are 100 and 0; the aggregate point is 0, not the sum 100
over all of the positions of the player. -/
theorem c7_counterexample :
    calculate_returns (StockData.mk ["d1"] ["Y"] (fun _ _ => 100))
        [Position.mk "B" "Y" 1 50 "e", Position.mk "B" "Y" 1 100 "e"] =
      [ReturnRow.mk "d1" "B" 0]
    ∧ positionTermAt (StockData.mk ["d1"] ["Y"] (fun _ _ => 100))
          (Position.mk "B" "Y" 1 50 "e") "d1"
        + positionTermAt (StockData.mk ["d1"] ["Y"] (fun _ _ => 100))
          (Position.mk "B" "Y" 1 100 "e") "d1" = 100
    ∧ (0 : ℚ) ≠ 100 := by
  refine ⟨?_, ?_, by norm_num⟩
  · norm_num [calculate_returns, buildPlayerPositions, addPosition, updateAssoc,
      lookupAssoc, playerReturnAt]
  · norm_num [positionTermAt]

/-- C8: a position whose symbol is absent from the matrix is silently
skipped: no snapshot row ever carries a symbol outside the matrix columns,
appending such a position changes nothing in the current snapshot, and — for
a player already present — nothing in the historical series. -/
theorem c8_unresolved_symbol_skipped (m : StockData) (ps : List Position)
    (p : Position) (hp : p.symbol ∉ m.symbols) :
    (∀ r ∈ calculate_current_positions m ps, r.symbol ∈ m.symbols)
    ∧ calculate_current_positions m (ps ++ [p]) = calculate_current_positions m ps
    ∧ (p.player ∈ playersOf ps →
        calculate_returns m (ps ++ [p]) = calculate_returns m ps) := by
  refine ⟨?_, ?_, ?_⟩
  · intro r hr
    by_cases hm : m.isEmpty = true
    · simp [calculate_current_positions, hm] at hr
    · simp only [calculate_current_positions, hm, if_false] at hr
      rcases List.mem_filterMap.mp hr with ⟨pos, hpos, hsome⟩
      by_cases hsym : pos.symbol ∈ m.symbols
      · rw [if_pos hsym] at hsome
        cases hsome
        exact hsym
      · rw [if_neg hsym] at hsome
        cases hsome
  · by_cases hm : m.isEmpty = true
    · simp [calculate_current_positions, hm]
    · simp [calculate_current_positions, hm, List.filterMap_append, hp]
  · intro hmem
    rw [calculate_returns_eq, calculate_returns_eq]
    have h1 : playersOf (ps ++ [p]) = playersOf ps := by
      rw [playersOf_append, if_pos hmem]
    rw [h1]
    refine congrArg List.flatten (List.map_congr_left ?_)
    intro pl hpl
    refine List.map_congr_left ?_
    intro d hd
    rw [effectiveDetails_append]
    by_cases hq : p.player = pl
    · rw [if_pos hq, playerReturnAt_updateAssoc_not_mem m hp]
    · rw [if_neg hq]

/-- C8 witness: appending a position in an unresolved symbol Q for the
already-present player A changes neither output. -/
theorem c8_witness :
    calculate_current_positions (StockData.mk ["d1"] ["X"] (fun _ _ => 100))
        ([Position.mk "A" "X" 1 100 "e"] ++ [Position.mk "A" "Q" 1 50 "e"]) =
      calculate_current_positions (StockData.mk ["d1"] ["X"] (fun _ _ => 100))
        [Position.mk "A" "X" 1 100 "e"]
    ∧ calculate_returns (StockData.mk ["d1"] ["X"] (fun _ _ => 100))
        ([Position.mk "A" "X" 1 100 "e"] ++ [Position.mk "A" "Q" 1 50 "e"]) =
      calculate_returns (StockData.mk ["d1"] ["X"] (fun _ _ => 100))
        [Position.mk "A" "X" 1 100 "e"] :=
  ⟨(c8_unresolved_symbol_skipped (StockData.mk ["d1"] ["X"] (fun _ _ => 100))
      [Position.mk "A" "X" 1 100 "e"] (Position.mk "A" "Q" 1 50 "e")
      (by decide)).2.1,
   (c8_unresolved_symbol_skipped (StockData.mk ["d1"] ["X"] (fun _ _ => 100))
      [Position.mk "A" "X" 1 100 "e"] (Position.mk "A" "Q" 1 50 "e")
      (by decide)).2.2 (by decide)⟩

/-- C9: the empty position list yields empty outputs from both valuation
operations, for every price matrix, with no error (both functions are total
and return the empty frame). -/
theorem c9_empty_positions (m : StockData) :
    calculate_returns m [] = [] ∧ calculate_current_positions m [] = [] := by
  constructor
  · rfl
  · by_cases hm : m.isEmpty = true <;> simp [calculate_current_positions, hm]

/-- C10: a player all of whose positions have unresolved symbols is still
present in the historical series: the rows of that player are exactly one
row per date of the matrix, each with return 0. -/
theorem c10_unresolved_player_zero_rows (m : StockData) (ps : List Position)
    (pl : String) (h1 : pl ∈ playersOf ps)
    (h2 : ∀ p ∈ ps, p.player = pl → p.symbol ∉ m.symbols) :
    (calculate_returns m ps).filter (fun r => r.player == pl) =
      m.index.map (fun d => ReturnRow.mk d pl 0) := by
  rw [calculate_returns_eq]
  rw [filter_player_flatten m
      (fun q d => playerReturnAt m (effectiveDetails ps q) d)
      (playersOf ps) (playersOf_nodup ps) h1]
  apply List.map_congr_left
  intro d hd
  have hzero : playerReturnAt m (effectiveDetails ps pl) d = 0 := by
    apply playerReturnAt_eq_zero
    intro sd hsd
    rcases mem_effectiveDetails hsd with ⟨q, hq, hq2, hq3⟩
    exact hq3 ▸ h2 q hq hq2
  rw [hzero]

/-- C10 witness: player A holds only the unresolved symbol Z; the series
still has one zero row per date. -/
theorem c10_witness :
    (calculate_returns (StockData.mk ["d1", "d2"] ["X"] (fun _ _ => 100))
        [Position.mk "A" "Z" 1 100 "e"]).filter (fun r => r.player == "A") =
      ["d1", "d2"].map (fun d => ReturnRow.mk d "A" 0) :=
  c10_unresolved_player_zero_rows
    (StockData.mk ["d1", "d2"] ["X"] (fun _ _ => 100))
    [Position.mk "A" "Z" 1 100 "e"] "A" (by decide) (by decide)
